import Mathlib

/-!
Verification development for the h265ize optimized encoder.

This file gives a shallow embedding of the two source components the claims
are about:

* the `MetadataCache` LRU cache from `src/lib/optimizations/modern-helpers.js`;
* the `OptimizedEncoder` scheduler class (constructor state, `addVideo`,
  `start`, `processQueue` dispatch, `processVideo` completion and failure
  handling, `pause`, `resume`, `stop`, `checkMemoryUsage`,
  `updateProcessingMetrics`, `finish`).

Scheduler steps are modelled at event-loop granularity: each constructor of
`LabeledStep` is one synchronous segment of JavaScript code (code between two
`await` suspension points runs atomically on the Node.js event loop).
External effects are abstracted as step parameters: the outcome of
`fs.access` becomes a boolean, `process.memoryUsage().heapUsed` becomes a
natural number, and the resolution or rejection of `video.process()` becomes
a completion or failure step carrying the sizes, the elapsed time and the
error message the external runner produced.
-/

namespace H265ize

/-! ### MetadataCache (src/lib/optimizations/modern-helpers.js, lines 111-155) -/

/-- Entry list of a JavaScript `Map` from cache keys to metadata values.  The
list order is the insertion order of the `Map` and keys are unique.  Keys and
values are abstracted as naturals; a key stands for the derived string
`filePath:mtime:size`. -/
abbrev CacheMap := List (Nat × Nat)

/-- JS `Map.prototype.get`: value of the first (unique) entry with the key. -/
def mapGet (l : CacheMap) (k : Nat) : Option Nat :=
  (l.find? (fun p => p.1 == k)).map Prod.snd

/-- JS `Map.prototype.set`: update in place when the key exists (keeping its
position in the insertion order), otherwise append at the end. -/
def mapSet (l : CacheMap) (k v : Nat) : CacheMap :=
  if (l.find? (fun p => p.1 == k)).isSome then
    l.map (fun p => if p.1 == k then (k, v) else p)
  else l ++ [(k, v)]

/-- JS `Map.prototype.delete` by key. -/
def mapDelete (l : CacheMap) (k : Nat) : CacheMap :=
  l.filter (fun p => p.1 != k)

/-- State of the `MetadataCache` class: the backing `Map` and the configured
capacity.  In the source the constructor default is `maxSize = 100`, but any
number (including `0`, which is falsy yet not `undefined`) can be passed. -/
structure MetadataCache where
  cache : CacheMap
  maxSize : Nat
deriving DecidableEq

/-- A freshly constructed `MetadataCache` with the given capacity. -/
def MetadataCache.emptyCache (maxSize : Nat) : MetadataCache :=
  ⟨[], maxSize⟩

/-- The `get` method.  The `fs.stat` call that derives the cache key is
abstracted: `statKey = none` models `stat` throwing (the method returns
`null` and leaves the cache untouched), `some k` is the derived key.  On a
hit the entry is deleted and re-inserted at the end (LRU refresh). -/
def MetadataCache.get (c : MetadataCache) (statKey : Option Nat) :
    MetadataCache × Option Nat :=
  match statKey with
  | none => (c, none)
  | some k =>
    match mapGet c.cache k with
    | some v => ({ c with cache := mapSet (mapDelete c.cache k) k v }, some v)
    | none => (c, none)

/-- First statement block of the `set` method: if `cache.size >= maxSize`,
delete the first key of the `Map` (on an empty `Map`, `keys().next().value`
is `undefined` and the delete is a no-op). -/
def evictIfFull (c : MetadataCache) : CacheMap :=
  if c.maxSize ≤ c.cache.length then
    match c.cache with
    | [] => c.cache
    | (k0, _) :: _ => mapDelete c.cache k0
  else c.cache

/-- The `set` method.  The eviction check runs first; then `fs.statSync`
derives the key.  If `statSync` throws (`statKey = none`) the insertion is
silently skipped (but the eviction has already happened), otherwise the
entry is stored. -/
def MetadataCache.set (c : MetadataCache) (statKey : Option Nat) (v : Nat) :
    MetadataCache :=
  match statKey with
  | none => { c with cache := evictIfFull c }
  | some k => { c with cache := mapSet (evictIfFull c) k v }

/-- The `clear` method. -/
def MetadataCache.clearCache (c : MetadataCache) : MetadataCache :=
  { c with cache := [] }

/-- One client operation on the cache. -/
inductive CacheOp where
  | get (statKey : Option Nat)
  | set (statKey : Option Nat) (v : Nat)
  | clear
deriving DecidableEq

/-- Apply one cache operation (dropping the value a `get` returns). -/
def applyOp (c : MetadataCache) (op : CacheOp) : MetadataCache :=
  match op with
  | .get k => (MetadataCache.get c k).1
  | .set k v => MetadataCache.set c k v
  | .clear => MetadataCache.clearCache c

/-- Apply a sequence of cache operations in order. -/
def applyOps (c : MetadataCache) (ops : List CacheOp) : MetadataCache :=
  ops.foldl applyOp c

/-! ### OptimizedEncoder: data model -/

/-- Record pushed onto `this.finishedVideos` on success (the object literal in
`processVideo`).  The video is identified by `id` (standing for its path);
`processingTime` is in milliseconds.  The source also stores
`compressionRatio = outputSize / inputSize`, derived from the two sizes. -/
structure FinishedRecord where
  id : Nat
  processingTime : ℚ
  inputSize : Nat
  outputSize : Nat
deriving DecidableEq

/-- Record pushed onto `this.failedVideos` by `handleVideoError`. -/
structure FailedRecord where
  id : Nat
  error : String
deriving DecidableEq

/-- The `this.metrics` object (the fields the claims are about; the memory
usage sub-object is tracked separately by `checkMemoryUsage`). -/
structure Metrics where
  totalFilesProcessed : Nat
  totalBytesProcessed : Nat
  averageProcessingTime : ℚ
deriving DecidableEq

/-- The metrics object as initialised in the constructor. -/
def initialMetrics : Metrics :=
  ⟨0, 0, 0⟩

/-- Mutable state of one `OptimizedEncoder` instance.  Videos are identified
by the natural number `nextId` they were assigned at submission; the JS `Set`
`currentlyProcessing` is a list of distinct ids.  `submissionLog` and
`dispatchLog` are history variables (not present in the JS object): they
record, in order, the ids passed to `addVideo` and the ids shifted out of the
queue by `processQueue`, and are used only to state ordering properties. -/
structure EncState where
  queue : List Nat
  currentlyProcessing : List Nat
  finishedVideos : List FinishedRecord
  failedVideos : List FailedRecord
  running : Bool
  paused : Bool
  shuttingDown : Bool
  maxConcurrentJobs : Nat
  memoryThreshold : Nat
  metrics : Metrics
  nextId : Nat
  submissionLog : List Nat
  dispatchLog : List Nat
deriving DecidableEq

/-- Constructor state.  `maxConcurrentJobs` and `memoryThreshold` stand for
the already-defaulted option values (`options.maxConcurrentJobs ||
Math.min(os.cpus().length, 4)` and `options.memoryThreshold || 2^30`). -/
def initState (maxConcurrentJobs memoryThreshold : Nat) : EncState :=
  { queue := []
    currentlyProcessing := []
    finishedVideos := []
    failedVideos := []
    running := false
    paused := false
    shuttingDown := false
    maxConcurrentJobs := maxConcurrentJobs
    memoryThreshold := memoryThreshold
    metrics := initialMetrics
    nextId := 0
    submissionLog := [], dispatchLog := [] }

/-! ### OptimizedEncoder: operations -/

/-- Successful branch of `addVideo`: a fresh `Video` is created and pushed
onto `this.queue`.  The fresh video gets id `nextId`. -/
def enqueue (s : EncState) : EncState :=
  { s with queue := s.queue ++ [s.nextId]
           nextId := s.nextId + 1
           submissionLog := s.submissionLog ++ [s.nextId] }

/-- The `addVideo` method.  `readable` abstracts the outcome of
`await fs.access(videoPath, fs.constants.R_OK)`: when it is `false` the
method rethrows the filesystem error (modelled by the representative code
`"ENOENT"`) without having touched any state; otherwise the video is pushed
onto the queue and returned. -/
def addVideo (s : EncState) (readable : Bool) : Except String (EncState × Nat) :=
  if readable then Except.ok (enqueue s, s.nextId)
  else Except.error "ENOENT"

/-- State mutation performed by a successful `start()` (the
`metrics.startTime` timestamp is not modelled). -/
def startRun (s : EncState) : EncState :=
  { s with running := true, paused := false, shuttingDown := false }

/-- The `start` method: throws `Encoder is already running` when
`this.running` is set, before mutating anything. -/
def start (s : EncState) : Except String EncState :=
  if s.running then Except.error "Encoder is already running"
  else Except.ok (startRun s)

/-- State mutation performed by a successful `pause()`. -/
def pauseRun (s : EncState) : EncState :=
  { s with paused := true }

/-- The `pause` method: throws when `!this.running || this.paused`, before
mutating anything. -/
def pause (s : EncState) : Except String EncState :=
  if !s.running || s.paused then
    Except.error "Encoder is not running or already paused"
  else Except.ok (pauseRun s)

/-- State mutation performed by a successful `resume()`. -/
def resumeRun (s : EncState) : EncState :=
  { s with paused := false }

/-- The `resume` method: throws when `!this.paused`, before mutating
anything. -/
def resume (s : EncState) : Except String EncState :=
  if !s.paused then Except.error "Encoder is not paused"
  else Except.ok (resumeRun s)

/-- The `stop` method, collapsed to its overall state effect: a no-op when
not running; otherwise it sets `shuttingDown`, awaits the per-video `stop`
calls (which on their own mutate nothing here), then sets `running` and
`paused` to `false` and calls `currentlyProcessing.clear()`.  Note that it
moves nothing into `finishedVideos` or `failedVideos`. -/
def stopRun (s : EncState) : EncState :=
  if !s.running then s
  else { s with shuttingDown := true
                running := false
                paused := false
                currentlyProcessing := [] }

/-- The `checkMemoryUsage` monitor callback, sampled every 5 seconds.
`heapUsed` abstracts `process.memoryUsage().heapUsed`.  When usage exceeds
the threshold and more than one concurrent job is allowed, the limit is
lowered by one (the source writes `Math.max(1, this.maxConcurrentJobs - 1)`). -/
def checkMemoryUsage (s : EncState) (heapUsed : Nat) : EncState :=
  if s.memoryThreshold < heapUsed then
    if 1 < s.maxConcurrentJobs then
      { s with maxConcurrentJobs := max 1 (s.maxConcurrentJobs - 1) }
    else s
  else s

/-- The `updateProcessingMetrics` method, over exact rationals: increment the
file count, add the input size, and fold the new processing time into the
rolling average with `((currentAverage * (count - 1)) + processingTime) /
count` where `count` is the already-incremented total. -/
def updateProcessingMetrics (m : Metrics) (inputSize : Nat) (processingTime : ℚ) :
    Metrics :=
  let count : Nat := m.totalFilesProcessed + 1
  { totalFilesProcessed := count
    totalBytesProcessed := m.totalBytesProcessed + inputSize
    averageProcessingTime :=
      ((m.averageProcessingTime * ((count : ℚ) - 1)) + processingTime) / (count : ℚ) }

/-- Synchronous tail of `processVideo` when `video.process()` resolves:
update the metrics, push the summary record onto `finishedVideos`, and (in
the `finally` block of the same synchronous segment) delete the video from
`currentlyProcessing`. -/
def completeVideo (s : EncState) (j : Nat) (inputSize outputSize : Nat)
    (processingTime : ℚ) : EncState :=
  { s with metrics := updateProcessingMetrics s.metrics inputSize processingTime
           finishedVideos :=
             s.finishedVideos ++ [⟨j, processingTime, inputSize, outputSize⟩]
           currentlyProcessing := s.currentlyProcessing.erase j }

/-- Synchronous tail of `processVideo` when `video.process()` rejects:
`handleVideoError` pushes the failure record, then the `finally` block
deletes the video from `currentlyProcessing`. -/
def failVideo (s : EncState) (j : Nat) (errorMessage : String) : EncState :=
  { s with failedVideos := s.failedVideos ++ [⟨j, errorMessage⟩]
           currentlyProcessing := s.currentlyProcessing.erase j }

/-- One dispatch of `processQueue`: shift the head of the queue and add it to
`currentlyProcessing` (the `add` happens in the synchronous prefix of the
`processVideo` call). -/
def dispatchNext (s : EncState) : EncState :=
  match s.queue with
  | [] => s
  | j :: rest =>
    { s with queue := rest
             currentlyProcessing := s.currentlyProcessing ++ [j]
             dispatchLog := s.dispatchLog ++ [j] }

/-- Summary block logged by `finish` when `finishedVideos.length > 0`.
`ratio` is `totalOutputSize / totalInputSize`; `none` models the JavaScript
non-finite result (`NaN`) when `totalInputSize` is zero. -/
structure FinishSummary where
  filesProcessed : Nat
  totalInputSize : Nat
  totalOutputSize : Nat
  ratio : Option ℚ
deriving DecidableEq

/-- The payload of the `finished` event together with the optional summary
log: `summary = none` means the whole summary block (including any
compression ratio) was skipped. -/
structure FinishReport where
  summary : Option FinishSummary
  processed : Nat
  failedCount : Nat
deriving DecidableEq

/-- The `finish` method: logs the summary only when at least one video
finished, sets `running := false`, and emits the `finished` event. -/
def finish (s : EncState) : EncState × FinishReport :=
  let summary : Option FinishSummary :=
    if 0 < s.finishedVideos.length then
      let totalInputSize := (s.finishedVideos.map FinishedRecord.inputSize).sum
      let totalOutputSize := (s.finishedVideos.map FinishedRecord.outputSize).sum
      let ratio : Option ℚ :=
        if totalInputSize = 0 then none
        else some ((totalOutputSize : ℚ) / (totalInputSize : ℚ))
      some ⟨s.finishedVideos.length, totalInputSize, totalOutputSize, ratio⟩
    else none
  ({ s with running := false },
   ⟨summary, s.finishedVideos.length, s.failedVideos.length⟩)

/-! ### OptimizedEncoder: event-loop step relation -/

/-- Names of the atomic scheduler steps. -/
inductive StepLabel where
  | add
  | start
  | dispatch
  | complete
  | jobFail
  | pause
  | resume
  | stop
  | monitor
  | finish
deriving DecidableEq

/-- One atomic (synchronous) scheduler step, labeled by which operation it
is.  The side conditions are exactly the guards the source checks before the
corresponding mutation runs. -/
inductive LabeledStep : StepLabel → EncState → EncState → Prop where
  | addStep (s : EncState) :
      LabeledStep .add s (enqueue s)
  | startStep (s : EncState) (h : s.running = false) :
      LabeledStep .start s (startRun s)
  | dispatchStep (s : EncState)
      (h1 : s.running = true) (h2 : s.paused = false) (h3 : s.shuttingDown = false)
      (h4 : s.currentlyProcessing.length < s.maxConcurrentJobs)
      (h5 : s.queue ≠ []) :
      LabeledStep .dispatch s (dispatchNext s)
  | completeStep (s : EncState) (j inputSize outputSize : Nat) (t : ℚ)
      (h : j ∈ s.currentlyProcessing) :
      LabeledStep .complete s (completeVideo s j inputSize outputSize t)
  | failStep (s : EncState) (j : Nat) (e : String)
      (h : j ∈ s.currentlyProcessing) :
      LabeledStep .jobFail s (failVideo s j e)
  | pauseStep (s : EncState) (h : (!s.running || s.paused) = false) :
      LabeledStep .pause s (pauseRun s)
  | resumeStep (s : EncState) (h : (!s.paused) = false) :
      LabeledStep .resume s (resumeRun s)
  | stopStep (s : EncState) :
      LabeledStep .stop s (stopRun s)
  | monitorStep (s : EncState) (heapUsed : Nat) :
      LabeledStep .monitor s (checkMemoryUsage s heapUsed)
  | finishStep (s : EncState)
      (h1 : s.running = true) (h2 : s.paused = false) (h3 : s.shuttingDown = false)
      (h4 : s.queue = []) (h5 : s.currentlyProcessing = []) :
      LabeledStep .finish s (finish s).1

/-- A step with some label. -/
def Step (s s' : EncState) : Prop :=
  ∃ lbl, LabeledStep lbl s s'

/-- States reachable from a freshly constructed encoder with the given
concurrency limit and memory threshold. -/
def ReachableFrom (maxConcurrentJobs memoryThreshold : Nat) (s : EncState) : Prop :=
  Relation.ReflTransGen Step (initState maxConcurrentJobs memoryThreshold) s

/-! ### Ownership invariant -/

/-- Ids of the videos recorded in `finishedVideos`. -/
def finishedIds (s : EncState) : List Nat :=
  s.finishedVideos.map FinishedRecord.id

/-- Ids of the videos recorded in `failedVideos`. -/
def failedIds (s : EncState) : List Nat :=
  s.failedVideos.map FailedRecord.id

/-- Multiset of all owned video ids: pending queue, in-flight set, finished
list and failed list together, with multiplicity. -/
def owners (s : EncState) : Multiset Nat :=
  (s.queue : Multiset Nat) + (s.currentlyProcessing : Multiset Nat)
    + (finishedIds s : Multiset Nat) + (failedIds s : Multiset Nat)

/-- Exclusive ownership: every created video id (those below `nextId`)
appears exactly once across the four collections, and no other id appears at
all.  Stated as a multiset equation; it is equivalent to
`(owners s).count j = if j < s.nextId then 1 else 0` for every `j`. -/
def ExclusiveOwnership (s : EncState) : Prop :=
  owners s = Multiset.range s.nextId

instance (s : EncState) : Decidable (ExclusiveOwnership s) :=
  inferInstanceAs (Decidable (owners s = Multiset.range s.nextId))

/-- The spec's `Idle` run state: the boolean configuration a freshly
constructed encoder starts in (`running`, `paused` and `shuttingDown` all
unset). -/
def IdleState (s : EncState) : Prop :=
  s.running = false ∧ s.paused = false ∧ s.shuttingDown = false

instance (s : EncState) : Decidable (IdleState s) :=
  inferInstanceAs (Decidable (_ ∧ _ ∧ _))

/-! ### Concrete runs used as witnesses and counterexamples -/

/-- A fresh encoder with concurrency limit 1 and memory threshold 0. -/
def exInit : EncState := initState 1 0

/-- The limit-1 encoder after a successful `start()`. -/
def exT1 : EncState := startRun exInit

/-- The limit-1 encoder after `start()` then `stop()`: `running` is `false`
again but `shuttingDown` stays `true`. -/
def exT2 : EncState := stopRun exT1

/-- The limit-1 encoder after one successful `addVideo` (video id 0). -/
def exS1 : EncState := enqueue exInit

/-- After `addVideo` then `start()`. -/
def exS2 : EncState := startRun exS1

/-- After the dispatch loop moved video 0 into `currentlyProcessing`. -/
def exS3 : EncState := dispatchNext exS2

/-- After `stop()` while video 0 was in flight: the in-flight set was
cleared, yet video 0 was recorded nowhere. -/
def exS4 : EncState := stopRun exS3

/-- A fresh encoder with concurrency limit 2 and memory threshold 0. -/
def ex3a : EncState := enqueue (initState 2 0)

/-- Limit-2 run: two videos submitted. -/
def ex3b : EncState := enqueue ex3a

/-- Limit-2 run: started. -/
def ex3c : EncState := startRun ex3b

/-- Limit-2 run: first video dispatched. -/
def ex3d : EncState := dispatchNext ex3c

/-- Limit-2 run: both videos in flight. -/
def ex3e : EncState := dispatchNext ex3d

/-- Limit-2 run: the resource monitor fires with `heapUsed = 1`, above the
threshold 0, and lowers the limit to 1 while two videos are in flight. -/
def ex3f : EncState := checkMemoryUsage ex3e 1

/-! ### Helper lemmas -/

lemma count_multiset_range (j n : Nat) :
    (Multiset.range n).count j = if j < n then 1 else 0 := by
  induction n with
  | zero => simp
  | succ n ih =>
    rw [Multiset.range_succ, Multiset.count_cons, ih]
    split_ifs <;> omega

lemma owners_count (s : EncState) (j : Nat) :
    (owners s).count j = s.queue.count j + s.currentlyProcessing.count j
      + (finishedIds s).count j + (failedIds s).count j := by
  simp [owners, Multiset.coe_count]
  omega

lemma exclusiveOwnership_iff_count (s : EncState) :
    ExclusiveOwnership s ↔
      ∀ j, s.queue.count j + s.currentlyProcessing.count j
        + (finishedIds s).count j + (failedIds s).count j
        = if j < s.nextId then 1 else 0 := by
  unfold ExclusiveOwnership
  rw [Multiset.ext]
  constructor
  · intro h j
    have := h j
    rwa [owners_count, count_multiset_range] at this
  · intro h j
    rw [owners_count, count_multiset_range]
    exact h j

lemma checkMemoryUsage_eq (s : EncState) (heapUsed : Nat) :
    checkMemoryUsage s heapUsed = s ∨
      (1 < s.maxConcurrentJobs ∧ checkMemoryUsage s heapUsed
        = { s with maxConcurrentJobs := s.maxConcurrentJobs - 1 }) := by
  unfold checkMemoryUsage
  split
  · split
    · rename_i hgt
      right
      refine ⟨hgt, ?_⟩
      rw [Nat.max_eq_right (by omega)]
    · left; rfl
  · left; rfl

lemma finish_fst (s : EncState) : (finish s).1 = { s with running := false } := rfl

lemma step_preserves_log (lbl : StepLabel) (s s' : EncState)
    (h : LabeledStep lbl s s')
    (hl : s.dispatchLog ++ s.queue = s.submissionLog) :
    s'.dispatchLog ++ s'.queue = s'.submissionLog := by
  cases h with
  | addStep s =>
      simp only [enqueue]
      rw [← List.append_assoc, hl]
  | startStep s h => simpa [startRun] using hl
  | dispatchStep s h1 h2 h3 h4 h5 =>
      rcases hq : s.queue with _ | ⟨a, rest⟩
      · exact absurd hq h5
      · rw [hq] at hl
        simp only [dispatchNext, hq]
        rw [List.append_assoc, ← hl]
        rfl
  | completeStep s j inS outS t h => simpa [completeVideo] using hl
  | failStep s j e h => simpa [failVideo] using hl
  | pauseStep s h => simpa [pauseRun] using hl
  | resumeStep s h => simpa [resumeRun] using hl
  | stopStep s =>
      unfold stopRun
      split
      · exact hl
      · simpa using hl
  | monitorStep s heap =>
      rcases checkMemoryUsage_eq s heap with heq | ⟨_, heq⟩ <;> rw [heq] <;> exact hl
  | finishStep s h1 h2 h3 h4 h5 =>
      rw [finish_fst]
      exact hl

lemma step_preserves_idle_empty (lbl : StepLabel) (s s' : EncState)
    (h : LabeledStep lbl s s')
    (hinv : s.running = false → s.currentlyProcessing = []) :
    s'.running = false → s'.currentlyProcessing = [] := by
  cases h with
  | addStep s => simpa [enqueue] using hinv
  | startStep s h => simp [startRun]
  | dispatchStep s h1 h2 h3 h4 h5 =>
      rcases hq : s.queue with _ | ⟨a, rest⟩
      · exact absurd hq h5
      · simp [dispatchNext, hq, h1]
  | completeStep s j inS outS t h =>
      intro hr
      simp only [completeVideo] at hr ⊢
      rw [hinv hr]
      rfl
  | failStep s j e h =>
      intro hr
      simp only [failVideo] at hr ⊢
      rw [hinv hr]
      rfl
  | pauseStep s h => simpa [pauseRun] using hinv
  | resumeStep s h => simpa [resumeRun] using hinv
  | stopStep s =>
      unfold stopRun
      split
      · exact hinv
      · simp
  | monitorStep s heap =>
      rcases checkMemoryUsage_eq s heap with heq | ⟨_, heq⟩ <;> rw [heq] <;> simpa using hinv
  | finishStep s h1 h2 h3 h4 h5 =>
      rw [finish_fst]
      intro
      exact h5

lemma reachable_not_running_processing_nil (k m : Nat) (s : EncState)
    (h : ReachableFrom k m s) :
    s.running = false → s.currentlyProcessing = [] := by
  induction h with
  | refl => intro; rfl
  | tail hab hbc ih =>
      obtain ⟨lbl, hstep⟩ := hbc
      exact step_preserves_idle_empty lbl _ _ hstep ih

lemma ownership_step (lbl : StepLabel) (s s' : EncState)
    (hlbl : lbl ≠ StepLabel.stop) (hstep : LabeledStep lbl s s')
    (hown : ExclusiveOwnership s) : ExclusiveOwnership s' := by
  rw [exclusiveOwnership_iff_count] at hown ⊢
  cases hstep with
  | addStep s =>
      intro i
      have hc := hown i
      simp only [enqueue, finishedIds, failedIds, List.count_append,
        List.count_singleton, beq_iff_eq] at hc ⊢
      split_ifs at hc ⊢ <;> omega
  | startStep s h =>
      intro i
      have hc := hown i
      simpa [startRun, finishedIds, failedIds] using hc
  | dispatchStep s h1 h2 h3 h4 h5 =>
      intro i
      have hc := hown i
      rcases hq : s.queue with _ | ⟨a, rest⟩
      · exact absurd hq h5
      · rw [hq] at hc
        simp only [dispatchNext, hq, finishedIds, failedIds, List.count_append,
          List.count_cons, List.count_nil, List.count_singleton, beq_iff_eq] at hc ⊢
        split_ifs at hc ⊢ <;> omega
  | completeStep s j inS outS t hmem =>
      intro i
      have hc := hown i
      have hpos : 0 < List.count j s.currentlyProcessing :=
        List.count_pos_iff.mpr hmem
      by_cases hij : i = j
      · subst hij
        simp [completeVideo, finishedIds, failedIds, List.count_append,
          List.count_singleton, List.count_erase, beq_iff_eq] at hc ⊢
        split_ifs at hc ⊢ <;> omega
      · simp [completeVideo, finishedIds, failedIds, List.count_append,
          List.count_singleton, List.count_erase, beq_iff_eq, hij,
          Ne.symm hij] at hc ⊢
        split_ifs at hc ⊢ <;> omega
  | failStep s j e hmem =>
      intro i
      have hc := hown i
      have hpos : 0 < List.count j s.currentlyProcessing :=
        List.count_pos_iff.mpr hmem
      by_cases hij : i = j
      · subst hij
        simp [failVideo, finishedIds, failedIds, List.count_append,
          List.count_singleton, List.count_erase, beq_iff_eq] at hc ⊢
        split_ifs at hc ⊢ <;> omega
      · simp [failVideo, finishedIds, failedIds, List.count_append,
          List.count_singleton, List.count_erase, beq_iff_eq, hij,
          Ne.symm hij] at hc ⊢
        split_ifs at hc ⊢ <;> omega
  | pauseStep s h =>
      intro i
      have hc := hown i
      simpa [pauseRun, finishedIds, failedIds] using hc
  | resumeStep s h =>
      intro i
      have hc := hown i
      simpa [resumeRun, finishedIds, failedIds] using hc
  | stopStep s => exact absurd rfl hlbl
  | monitorStep s heap =>
      intro i
      have hc := hown i
      rcases checkMemoryUsage_eq s heap with heq | ⟨_, heq⟩ <;> rw [heq] <;>
        simpa [finishedIds, failedIds] using hc
  | finishStep s h1 h2 h3 h4 h5 =>
      intro i
      have hc := hown i
      rw [finish_fst]
      simpa [finishedIds, failedIds] using hc

lemma reach_exT1 : ReachableFrom 1 0 exT1 :=
  Relation.ReflTransGen.single ⟨.start, LabeledStep.startStep exInit rfl⟩

lemma reach_exT2 : ReachableFrom 1 0 exT2 :=
  reach_exT1.tail ⟨.stop, LabeledStep.stopStep exT1⟩

lemma reach_exS2 : ReachableFrom 1 0 exS2 :=
  Relation.ReflTransGen.head ⟨.add, LabeledStep.addStep exInit⟩
    (Relation.ReflTransGen.single ⟨.start, LabeledStep.startStep exS1 rfl⟩)

lemma reach_exS3 : ReachableFrom 1 0 exS3 :=
  reach_exS2.tail
    ⟨.dispatch, LabeledStep.dispatchStep exS2 rfl rfl rfl (by decide) (by decide)⟩

lemma reach_exS4 : ReachableFrom 1 0 exS4 :=
  reach_exS3.tail ⟨.stop, LabeledStep.stopStep exS3⟩

lemma reach_ex3f : ReachableFrom 2 0 ex3f := by
  have h1 : Step (initState 2 0) ex3a := ⟨.add, LabeledStep.addStep (initState 2 0)⟩
  have h2 : Step ex3a ex3b := ⟨.add, LabeledStep.addStep ex3a⟩
  have h3 : Step ex3b ex3c := ⟨.start, LabeledStep.startStep ex3b rfl⟩
  have h4 : Step ex3c ex3d :=
    ⟨.dispatch, LabeledStep.dispatchStep ex3c rfl rfl rfl (by decide) (by decide)⟩
  have h5 : Step ex3d ex3e :=
    ⟨.dispatch, LabeledStep.dispatchStep ex3d rfl rfl rfl (by decide) (by decide)⟩
  have h6 : Step ex3e ex3f := ⟨.monitor, LabeledStep.monitorStep ex3e 1⟩
  exact .head h1 (.head h2 (.head h3 (.head h4 (.head h5 (.single h6)))))

lemma checkMemoryUsage_le (s : EncState) (heapUsed : Nat) :
    (checkMemoryUsage s heapUsed).maxConcurrentJobs ≤ s.maxConcurrentJobs := by
  rcases checkMemoryUsage_eq s heapUsed with heq | ⟨_, heq⟩
  · rw [heq]
  · rw [heq]
    simp

lemma foldl_checkMemoryUsage_le (samples : List Nat) (s : EncState) :
    (samples.foldl checkMemoryUsage s).maxConcurrentJobs ≤ s.maxConcurrentJobs := by
  induction samples generalizing s with
  | nil => exact le_refl _
  | cons a rest ih =>
      exact le_trans (ih (checkMemoryUsage s a)) (checkMemoryUsage_le s a)

lemma metrics_foldl (jobs : List (Nat × ℚ)) (m : Metrics) :
    (jobs.foldl (fun acc p => updateProcessingMetrics acc p.1 p.2) m).totalFilesProcessed
      = m.totalFilesProcessed + jobs.length ∧
    (jobs.foldl (fun acc p => updateProcessingMetrics acc p.1 p.2) m).averageProcessingTime
        * ((m.totalFilesProcessed + jobs.length : Nat) : ℚ)
      = m.averageProcessingTime * (m.totalFilesProcessed : ℚ)
          + (jobs.map Prod.snd).sum := by
  induction jobs generalizing m with
  | nil => simp
  | cons p rest ih =>
      obtain ⟨ih1, ih2⟩ := ih (updateProcessingMetrics m p.1 p.2)
      have hcount : (updateProcessingMetrics m p.1 p.2).totalFilesProcessed
          = m.totalFilesProcessed + 1 := rfl
      have hne : ((m.totalFilesProcessed + 1 : Nat) : ℚ) ≠ 0 := by
        exact_mod_cast Nat.succ_ne_zero m.totalFilesProcessed
      have havg : (updateProcessingMetrics m p.1 p.2).averageProcessingTime
            * ((m.totalFilesProcessed + 1 : Nat) : ℚ)
          = m.averageProcessingTime * (m.totalFilesProcessed : ℚ) + p.2 := by
        show ((m.averageProcessingTime * (((m.totalFilesProcessed + 1 : Nat) : ℚ) - 1))
            + p.2) / ((m.totalFilesProcessed + 1 : Nat) : ℚ)
            * ((m.totalFilesProcessed + 1 : Nat) : ℚ)
          = m.averageProcessingTime * (m.totalFilesProcessed : ℚ) + p.2
        rw [div_mul_cancel₀ _ hne]
        push_cast
        ring
      constructor
      · simp only [List.foldl_cons, ih1, hcount, List.length_cons]
        omega
      · simp only [List.foldl_cons, List.length_cons, List.map_cons, List.sum_cons]
        rw [hcount] at ih2
        have harr : (m.totalFilesProcessed + (rest.length + 1) : Nat)
            = (m.totalFilesProcessed + 1 + rest.length : Nat) := by omega
        rw [harr, ih2, havg]
        ring

lemma mapDelete_length_le (l : CacheMap) (k : Nat) :
    (mapDelete l k).length ≤ l.length :=
  List.length_filter_le _ l

lemma mapDelete_length_lt (l : CacheMap) (k : Nat)
    (h : mapGet l k ≠ none) : (mapDelete l k).length < l.length := by
  induction l with
  | nil => simp [mapGet] at h
  | cons p rest ih =>
      by_cases hk : p.1 = k
      · have : (mapDelete (p :: rest) k).length ≤ rest.length := by
          simp only [mapDelete, List.filter_cons]
          rw [if_neg (by simp [hk])]
          exact List.length_filter_le _ rest
        simpa using Nat.lt_succ_of_le this
      · have hrest : mapGet rest k ≠ none := by
          simpa [mapGet, List.find?_cons, hk] using h
        have := ih hrest
        simp only [mapDelete, List.filter_cons]
        rw [if_pos (by simp [hk])]
        simpa [mapDelete] using Nat.succ_lt_succ this

lemma mapSet_length_le (l : CacheMap) (k v : Nat) :
    (mapSet l k v).length ≤ l.length + 1 := by
  unfold mapSet
  split
  · simp
  · simp

lemma mapDelete_key_not_mem (l : CacheMap) (k : Nat) :
    k ∉ (mapDelete l k).map Prod.fst := by
  intro hmem
  obtain ⟨p, hp, hfst⟩ := List.mem_map.mp hmem
  have := (List.mem_filter.mp hp).2
  rw [hfst] at this
  simp at this

lemma mapSet_key_not_mem (l : CacheMap) (k v k0 : Nat)
    (h : k0 ∉ l.map Prod.fst) (hne : k ≠ k0) :
    k0 ∉ (mapSet l k v).map Prod.fst := by
  unfold mapSet
  split
  · intro hmem
    obtain ⟨p, hp, hfst⟩ := List.mem_map.mp hmem
    obtain ⟨q, hq, hqeq⟩ := List.mem_map.mp hp
    by_cases hqk : q.1 = k
    · rw [← hqeq] at hfst
      simp [hqk] at hfst
      exact hne hfst
    · rw [← hqeq] at hfst
      simp [hqk] at hfst
      exact h (List.mem_map.mpr ⟨q, hq, hfst⟩)
  · intro hmem
    rcases List.mem_map.mp hmem with ⟨p, hp, hfst⟩
    rcases List.mem_append.mp hp with hpl | hpr
    · exact h (List.mem_map.mpr ⟨p, hpl, hfst⟩)
    · simp at hpr
      subst hpr
      simp at hfst
      exact hne hfst

lemma find?_mapDelete_self (l : CacheMap) (k : Nat) :
    (mapDelete l k).find? (fun p => p.1 == k) = none := by
  apply List.find?_eq_none.mpr
  intro p hp
  have := (List.mem_filter.mp hp).2
  simpa using this

lemma mapSet_mapDelete_append (l : CacheMap) (k v : Nat) :
    mapSet (mapDelete l k) k v = mapDelete l k ++ [(k, v)] := by
  unfold mapSet
  rw [find?_mapDelete_self]
  simp

lemma applyOp_maxSize (c : MetadataCache) (op : CacheOp) :
    (applyOp c op).maxSize = c.maxSize := by
  cases op with
  | get statKey =>
      rcases statKey with _ | k
      · rfl
      · simp only [applyOp, MetadataCache.get]
        rcases mapGet c.cache k with _ | v <;> rfl
  | set statKey v =>
      rcases statKey with _ | k <;> rfl
  | clear => rfl

lemma evictIfFull_length (c : MetadataCache) (hmax : 1 ≤ c.maxSize)
    (h : c.cache.length ≤ c.maxSize) :
    (evictIfFull c).length + 1 ≤ c.maxSize := by
  unfold evictIfFull
  by_cases hfull : c.maxSize ≤ c.cache.length
  · rw [if_pos hfull]
    rcases hc : c.cache with _ | ⟨⟨k0, v0⟩, rest⟩
    · rw [hc] at hfull
      simp at hfull
      omega
    · have hdel : (mapDelete ((k0, v0) :: rest) k0).length
          < ((k0, v0) :: rest).length := by
        apply mapDelete_length_lt
        simp [mapGet, List.find?]
      rw [hc] at hfull h
      show (mapDelete ((k0, v0) :: rest) k0).length + 1 ≤ c.maxSize
      omega
  · rw [if_neg hfull]
    omega

lemma applyOp_length (c : MetadataCache) (op : CacheOp)
    (hmax : 1 ≤ c.maxSize) (h : c.cache.length ≤ c.maxSize) :
    (applyOp c op).cache.length ≤ c.maxSize := by
  cases op with
  | get statKey =>
      rcases statKey with _ | k
      · exact h
      · simp only [applyOp, MetadataCache.get]
        rcases hg : mapGet c.cache k with _ | v
        · exact h
        · have hlt : (mapDelete c.cache k).length < c.cache.length :=
            mapDelete_length_lt c.cache k (by rw [hg]; exact Option.some_ne_none v)
          have := mapSet_length_le (mapDelete c.cache k) k v
          simp only
          omega
  | set statKey v =>
      have hev := evictIfFull_length c hmax h
      rcases statKey with _ | k
      · simp only [applyOp, MetadataCache.set]
        omega
      · have := mapSet_length_le (evictIfFull c) k v
        simp only [applyOp, MetadataCache.set]
        omega
  | clear => simp [applyOp, MetadataCache.clearCache]

lemma applyOps_length (ops : List CacheOp) (c : MetadataCache)
    (hmax : 1 ≤ c.maxSize) (h : c.cache.length ≤ c.maxSize) :
    (applyOps c ops).cache.length ≤ (applyOps c ops).maxSize := by
  induction ops generalizing c with
  | nil => exact le_trans h (le_refl _)
  | cons op rest ih =>
      have h1 := applyOp_maxSize c op
      exact ih (applyOp c op) (by rw [h1]; exact hmax)
        (by rw [h1]; exact applyOp_length c op hmax h)

lemma applyOps_maxSize (ops : List CacheOp) (c : MetadataCache) :
    (applyOps c ops).maxSize = c.maxSize := by
  induction ops generalizing c with
  | nil => rfl
  | cons op rest ih => rw [applyOps, List.foldl_cons, ← applyOps, ih, applyOp_maxSize]

/-! ### Claim theorems -/

/-- C1 (corrected).  Exclusive ownership — every created video id belongs to
exactly one of {pending queue, in-flight set, finished list, failed list} —
is preserved by submission, start, dispatch, job completion, job failure,
pause, resume, the resource monitor and finish.  It is NOT preserved by
`stop()` (see the counterexample): `stop()` clears the in-flight set without
recording its members anywhere, so the claim holds only for the steps other
than `stop`. -/
theorem exclusive_ownership_preserved_without_stop
    (lbl : StepLabel) (s s' : EncState) (hlbl : lbl ≠ StepLabel.stop)
    (hstep : LabeledStep lbl s s') (hown : ExclusiveOwnership s) :
    ExclusiveOwnership s' :=
  ownership_step lbl s s' hlbl hstep hown

/-- Witness for C1: the dispatch step from the concrete reachable state
`exS2` preserves exclusive ownership. -/
theorem exclusive_ownership_preserved_witness : ExclusiveOwnership exS3 :=
  exclusive_ownership_preserved_without_stop .dispatch exS2 exS3 (by decide)
    (LabeledStep.dispatchStep exS2 rfl rfl rfl (by decide) (by decide))
    (by decide)

/-- Counterexample for C1 as stated: after `start`, `addVideo`, one dispatch
and then `stop()`, the state `exS4` is reachable and video 0 belongs to none
of the four collections — `stop()` does not preserve exclusive ownership. -/
theorem stop_breaks_exclusive_ownership :
    ReachableFrom 1 0 exS4 ∧ ¬ ExclusiveOwnership exS4 :=
  ⟨reach_exS4, by decide⟩

/-- C2 (corrected).  After `stop()` the in-flight set is indeed empty, but
`stop()` itself records nothing: the finished and failed lists are exactly
what they were before, so an in-flight job whose runner never settles is
never recorded, and no `stopped by caller` failure reason is produced
anywhere in the code. -/
theorem stop_clears_without_recording (k m : Nat) (s : EncState)
    (h : ReachableFrom k m s) :
    (stopRun s).currentlyProcessing = [] ∧
    (stopRun s).finishedVideos = s.finishedVideos ∧
    (stopRun s).failedVideos = s.failedVideos := by
  refine ⟨?_, ?_, ?_⟩
  · unfold stopRun
    split
    · rename_i hr
      exact reachable_not_running_processing_nil k m s h (by simpa using hr)
    · rfl
  · unfold stopRun
    split <;> rfl
  · unfold stopRun
    split <;> rfl

/-- Witness for C2 (amended): instantiated at the reachable state `exS3`
which has video 0 in flight. -/
theorem stop_clears_without_recording_witness :
    (stopRun exS3).currentlyProcessing = [] ∧
    (stopRun exS3).finishedVideos = exS3.finishedVideos ∧
    (stopRun exS3).failedVideos = exS3.failedVideos :=
  stop_clears_without_recording 1 0 exS3 reach_exS3

/-- Counterexample for C2 as stated: at the reachable state `exS3` one job
(video 0) is in flight; after `stop()` the in-flight set is empty but the
job was appended to neither the finished nor the failed list, and in
particular no record with reason `stopped by caller` exists. -/
theorem stop_discards_inflight_job :
    ReachableFrom 1 0 exS3 ∧ exS3.currentlyProcessing = [0] ∧
    (stopRun exS3).currentlyProcessing = [] ∧
    finishedIds (stopRun exS3) = [] ∧ failedIds (stopRun exS3) = [] ∧
    "stopped by caller" ∉ (stopRun exS3).failedVideos.map FailedRecord.error :=
  ⟨reach_exS3, by decide, by decide, by decide, by decide, by decide⟩

/-- C3 (corrected).  The in-flight bound `currentlyProcessing.size ≤
maxConcurrentJobs` is guaranteed at every dispatch (part one: a dispatch step
unconditionally re-establishes the bound, because `processQueue` only shifts
a video when `size < maxConcurrentJobs`), and it is preserved by every step
other than the resource monitor (part two).  The monitor can decrement the
limit below the current in-flight count, so the bound is not invariant at
all times — see the counterexample. -/
theorem inflight_bound_outside_monitor :
    (∀ s s' : EncState, LabeledStep StepLabel.dispatch s s' →
        s'.currentlyProcessing.length ≤ s'.maxConcurrentJobs) ∧
    (∀ (lbl : StepLabel) (s s' : EncState), lbl ≠ StepLabel.monitor →
        LabeledStep lbl s s' →
        s.currentlyProcessing.length ≤ s.maxConcurrentJobs →
        s'.currentlyProcessing.length ≤ s'.maxConcurrentJobs) := by
  constructor
  · intro s s' hstep
    cases hstep with
    | dispatchStep s h1 h2 h3 h4 h5 =>
        rcases hq : s.queue with _ | ⟨a, rest⟩
        · exact absurd hq h5
        · simp only [dispatchNext, hq, List.length_append, List.length_cons]
          simp only [List.length_nil]
          omega
  · intro lbl s s' hlbl hstep hbound
    cases hstep with
    | addStep s => simpa [enqueue] using hbound
    | startStep s h => simpa [startRun] using hbound
    | dispatchStep s h1 h2 h3 h4 h5 =>
        rcases hq : s.queue with _ | ⟨a, rest⟩
        · exact absurd hq h5
        · simp only [dispatchNext, hq, List.length_append, List.length_cons,
            List.length_nil]
          omega
    | completeStep s j inS outS t hmem =>
        have herase := List.length_erase_of_mem hmem
        simp only [completeVideo]
        omega
    | failStep s j e hmem =>
        have herase := List.length_erase_of_mem hmem
        simp only [failVideo]
        omega
    | pauseStep s h => simpa [pauseRun] using hbound
    | resumeStep s h => simpa [resumeRun] using hbound
    | stopStep s =>
        unfold stopRun
        split
        · exact hbound
        · simp
    | monitorStep s heap => exact absurd rfl hlbl
    | finishStep s h1 h2 h3 h4 h5 =>
        rw [finish_fst]
        simp [h5]

/-- Witness for C3 (amended): the dispatch out of the concrete state `exS2`
satisfies the bound. -/
theorem inflight_bound_witness :
    (dispatchNext exS2).currentlyProcessing.length
      ≤ (dispatchNext exS2).maxConcurrentJobs :=
  inflight_bound_outside_monitor.1 exS2 (dispatchNext exS2)
    (LabeledStep.dispatchStep exS2 rfl rfl rfl (by decide) (by decide))

/-- Counterexample for C3 as stated: with limit 2, two videos in flight, a
single monitor sample above the threshold lowers the limit to 1, and the
reachable state `ex3f` has `inFlight.size = 2 > 1 = maxConcurrentJobs`. -/
theorem monitor_decrement_breaks_inflight_bound :
    ReachableFrom 2 0 ex3f ∧ ex3f.maxConcurrentJobs = 1 ∧
    ex3f.currentlyProcessing.length = 2 ∧
    ¬ (ex3f.currentlyProcessing.length ≤ ex3f.maxConcurrentJobs) :=
  ⟨reach_ex3f, by decide, by decide, by decide⟩

/-- C4 (confirmed).  The pending queue is strict FIFO: in every reachable
state, the ids dispatched so far followed by the current queue are exactly
the ids in submission order.  In particular the dispatch log is always a
prefix of the submission log, so if video A was submitted before video B,
A is dispatched before B; no priority or reordering policy exists. -/
theorem fifo_dispatch_order (k m : Nat) (s : EncState)
    (h : ReachableFrom k m s) :
    s.dispatchLog ++ s.queue = s.submissionLog := by
  induction h with
  | refl => rfl
  | tail hab hbc ih =>
      obtain ⟨lbl, hstep⟩ := hbc
      exact step_preserves_log lbl _ _ hstep ih

/-- Witness for C4: at the reachable state `exS3`, video 0 has been
dispatched and the log equation holds concretely. -/
theorem fifo_dispatch_order_witness :
    exS3.dispatchLog ++ exS3.queue = exS3.submissionLog :=
  fifo_dispatch_order 1 0 exS3 reach_exS3

/-- C5 (confirmed).  `addVideo` either fails synchronously when the path is
not readable — returning the filesystem error with no state change, since in
the source the `queue.push` only happens after `fs.access` resolves — or
appends exactly one fresh record (id `nextId`, not present in any of the
four collections, by exclusive ownership) to the tail of the pending queue,
leaving every other scheduler field unchanged. -/
theorem addVideo_admission (s : EncState) (hown : ExclusiveOwnership s) :
    addVideo s false = Except.error "ENOENT" ∧
    addVideo s true = Except.ok (enqueue s, s.nextId) ∧
    (enqueue s).queue = s.queue ++ [s.nextId] ∧
    s.nextId ∉ s.queue ∧ s.nextId ∉ s.currentlyProcessing ∧
    s.nextId ∉ finishedIds s ∧ s.nextId ∉ failedIds s ∧
    (enqueue s).currentlyProcessing = s.currentlyProcessing ∧
    (enqueue s).finishedVideos = s.finishedVideos ∧
    (enqueue s).failedVideos = s.failedVideos ∧
    (enqueue s).running = s.running ∧ (enqueue s).paused = s.paused ∧
    (enqueue s).shuttingDown = s.shuttingDown ∧
    (enqueue s).metrics = s.metrics ∧
    (enqueue s).maxConcurrentJobs = s.maxConcurrentJobs := by
  have hc := (exclusiveOwnership_iff_count s).mp hown s.nextId
  rw [if_neg (lt_irrefl s.nextId)] at hc
  refine ⟨rfl, rfl, rfl, ?_, ?_, ?_, ?_, rfl, rfl, rfl, rfl, rfl, rfl, rfl, rfl⟩
  · exact List.count_eq_zero.mp (by omega)
  · exact List.count_eq_zero.mp (by omega)
  · exact List.count_eq_zero.mp (by omega)
  · exact List.count_eq_zero.mp (by omega)

/-- Witness for C5: instantiated at the concrete running state `exS2`. -/
theorem addVideo_admission_witness :
    addVideo exS2 false = Except.error "ENOENT" ∧
    addVideo exS2 true = Except.ok (enqueue exS2, exS2.nextId) ∧
    (enqueue exS2).queue = exS2.queue ++ [exS2.nextId] ∧
    exS2.nextId ∉ exS2.queue ∧ exS2.nextId ∉ exS2.currentlyProcessing ∧
    exS2.nextId ∉ finishedIds exS2 ∧ exS2.nextId ∉ failedIds exS2 ∧
    (enqueue exS2).currentlyProcessing = exS2.currentlyProcessing ∧
    (enqueue exS2).finishedVideos = exS2.finishedVideos ∧
    (enqueue exS2).failedVideos = exS2.failedVideos ∧
    (enqueue exS2).running = exS2.running ∧ (enqueue exS2).paused = exS2.paused ∧
    (enqueue exS2).shuttingDown = exS2.shuttingDown ∧
    (enqueue exS2).metrics = exS2.metrics ∧
    (enqueue exS2).maxConcurrentJobs = exS2.maxConcurrentJobs :=
  addVideo_admission exS2 (by decide)

/-- C6 (corrected).  The lifecycle guards are exactly the boolean checks of
the source: `start()` rejects precisely when `running` is `true` (not when
the state is outside the spec's `Idle` — after a completed `stop()` the
state has `shuttingDown = true` yet `start()` succeeds, see the
counterexample); `pause()` rejects precisely unless running and not paused;
`resume()` rejects precisely when not paused.  Each rejection happens before
any mutation, so a rejected call returns no new state. -/
theorem lifecycle_guard_characterization (s : EncState) :
    ((start s).isOk = true ↔ s.running = false) ∧
    ((pause s).isOk = true ↔ (s.running = true ∧ s.paused = false)) ∧
    ((resume s).isOk = true ↔ s.paused = true) ∧
    (start s = Except.error "Encoder is already running" ↔ s.running = true) ∧
    (pause s = Except.error "Encoder is not running or already paused"
      ↔ (s.running = false ∨ s.paused = true)) ∧
    (resume s = Except.error "Encoder is not paused" ↔ s.paused = false) := by
  cases hr : s.running <;> cases hp : s.paused <;>
    simp [start, pause, resume, hr, hp, Except.isOk, Except.toBool]

/-- Witness for C6 (amended): the characterization instantiated at the
concrete post-stop state `exT2`. -/
theorem lifecycle_guard_witness :
    ((start exT2).isOk = true ↔ exT2.running = false) ∧
    ((pause exT2).isOk = true ↔ (exT2.running = true ∧ exT2.paused = false)) ∧
    ((resume exT2).isOk = true ↔ exT2.paused = true) ∧
    (start exT2 = Except.error "Encoder is already running"
      ↔ exT2.running = true) ∧
    (pause exT2 = Except.error "Encoder is not running or already paused"
      ↔ (exT2.running = false ∨ exT2.paused = true)) ∧
    (resume exT2 = Except.error "Encoder is not paused" ↔ exT2.paused = false) :=
  lifecycle_guard_characterization exT2

/-- Counterexample for C6 as stated: the state `exT2` reached by `start()`
then `stop()` is not `Idle` (`shuttingDown` is still `true`), yet `start()`
succeeds from it instead of rejecting. -/
theorem start_succeeds_outside_idle :
    ReachableFrom 1 0 exT2 ∧ ¬ IdleState exT2 ∧
    start exT2 = Except.ok (startRun exT2) :=
  ⟨reach_exT2, by decide, rfl⟩

/-- C7 (confirmed).  On a monitor sample above the threshold the concurrency
limit drops by exactly one when it is greater than 1; a single sample never
increases the limit and never takes a positive limit below 1; and over any
sequence of samples the limit is monotonically non-increasing. -/
theorem checkMemoryUsage_ratchet (s : EncState) (heapUsed : Nat)
    (samples : List Nat) :
    (s.memoryThreshold < heapUsed → 1 < s.maxConcurrentJobs →
      (checkMemoryUsage s heapUsed).maxConcurrentJobs = s.maxConcurrentJobs - 1) ∧
    ((checkMemoryUsage s heapUsed).maxConcurrentJobs ≤ s.maxConcurrentJobs) ∧
    (1 ≤ s.maxConcurrentJobs →
      1 ≤ (checkMemoryUsage s heapUsed).maxConcurrentJobs) ∧
    ((samples.foldl checkMemoryUsage s).maxConcurrentJobs
      ≤ s.maxConcurrentJobs) := by
  refine ⟨?_, checkMemoryUsage_le s heapUsed, ?_, foldl_checkMemoryUsage_le samples s⟩
  · intro hh hl
    unfold checkMemoryUsage
    rw [if_pos hh, if_pos hl]
    show max 1 (s.maxConcurrentJobs - 1) = s.maxConcurrentJobs - 1
    omega
  · intro h1
    rcases checkMemoryUsage_eq s heapUsed with heq | ⟨hgt, heq⟩ <;> rw [heq]
    · exact h1
    · show 1 ≤ s.maxConcurrentJobs - 1
      omega

/-- Witness for C7: the concrete over-threshold sample at `ex3e` drops the
limit from 2 to 1; three samples in a row never increase it. -/
theorem checkMemoryUsage_ratchet_witness :
    (checkMemoryUsage ex3e 1).maxConcurrentJobs = ex3e.maxConcurrentJobs - 1 ∧
    (checkMemoryUsage ex3e 1).maxConcurrentJobs ≤ ex3e.maxConcurrentJobs ∧
    1 ≤ (checkMemoryUsage ex3e 1).maxConcurrentJobs ∧
    ([1, 1, 1].foldl checkMemoryUsage ex3e).maxConcurrentJobs
      ≤ ex3e.maxConcurrentJobs := by
  obtain ⟨h1, h2, h3, h4⟩ := checkMemoryUsage_ratchet ex3e 1 [1, 1, 1]
  exact ⟨h1 (by decide) (by decide), h2, h3 (by decide), h4⟩

/-- C8 (corrected).  `finish` is a total function, so it never throws, and
with zero successfully processed videos it performs no division at all — but
it does not report a compression ratio of 0 either: the whole summary block
(ratio included) is skipped, because the source guards it with
`if (this.finishedVideos.length > 0)`. -/
theorem finish_zero_summary_none (s : EncState) (h : s.finishedVideos = []) :
    (finish s).2.summary = none ∧ (finish s).2.processed = 0 ∧
    (finish s).1.running = false := by
  simp [finish, h]

/-- Witness for C8 (amended): instantiated at the reachable running state
`exT1`, which satisfies the guards under which `processQueue` calls
`finish`. -/
theorem finish_zero_summary_none_witness :
    (finish exT1).2.summary = none ∧ (finish exT1).2.processed = 0 ∧
    (finish exT1).1.running = false :=
  finish_zero_summary_none exT1 rfl

/-- Counterexample for C8 as stated: at the reachable zero-success state
`exT1` the reported summary is `none`, so the reported compression ratio is
not 0 — no ratio is reported at all. -/
theorem finish_zero_reports_no_ratio :
    ReachableFrom 1 0 exT1 ∧ exT1.finishedVideos = [] ∧
    (finish exT1).2.summary = none ∧
    Option.bind (finish exT1).2.summary FinishSummary.ratio ≠ some 0 :=
  ⟨reach_exT1, rfl, by decide, by decide⟩

/-- C9 (confirmed).  Over exact rationals, folding
`updateProcessingMetrics` over any sequence of successful jobs leaves
`totalFilesProcessed = n` and `averageProcessingTime` equal to the
arithmetic mean of the processing times; moreover one incremental update
equals the spec's form `mean + (x - mean) / n` with `n` the new count. -/
theorem incremental_mean_correct (jobs : List (Nat × ℚ)) (m : Metrics)
    (inputSize : Nat) (x : ℚ) :
    ((jobs.foldl (fun acc p => updateProcessingMetrics acc p.1 p.2)
        initialMetrics).totalFilesProcessed = jobs.length) ∧
    ((jobs.foldl (fun acc p => updateProcessingMetrics acc p.1 p.2)
        initialMetrics).averageProcessingTime
      = (jobs.map Prod.snd).sum / (jobs.length : ℚ)) ∧
    ((updateProcessingMetrics m inputSize x).averageProcessingTime
      = m.averageProcessingTime
          + (x - m.averageProcessingTime) / ((m.totalFilesProcessed : ℚ) + 1)) := by
  obtain ⟨h1, h2⟩ := metrics_foldl jobs initialMetrics
  refine ⟨by simpa [initialMetrics] using h1, ?_, ?_⟩
  · rcases Nat.eq_zero_or_pos jobs.length with hz | hp
    · have hnil : jobs = [] := List.length_eq_zero.mp hz
      subst hnil
      simp [initialMetrics]
    · have hlen : ((jobs.length : Nat) : ℚ) ≠ 0 := by
        exact_mod_cast Nat.pos_iff_ne_zero.mp hp
      have h2' : (jobs.foldl (fun acc p => updateProcessingMetrics acc p.1 p.2)
            initialMetrics).averageProcessingTime * ((jobs.length : Nat) : ℚ)
          = (jobs.map Prod.snd).sum := by
        simpa [initialMetrics] using h2
      rw [eq_div_iff hlen]
      exact h2'
  · have hne : ((m.totalFilesProcessed : ℚ) + 1) ≠ 0 := by positivity
    show ((m.averageProcessingTime * (((m.totalFilesProcessed + 1 : Nat) : ℚ) - 1)) + x)
          / ((m.totalFilesProcessed + 1 : Nat) : ℚ)
        = m.averageProcessingTime
            + (x - m.averageProcessingTime) / ((m.totalFilesProcessed : ℚ) + 1)
    push_cast
    field_simp
    ring

/-- Witness for C9: two successful jobs with processing times 3 and 5
average to 4, and one concrete incremental update matches the spec's
formula. -/
theorem incremental_mean_witness :
    (([((100 : Nat), (3 : ℚ)), (200, 5)].foldl
        (fun acc p => updateProcessingMetrics acc p.1 p.2)
        initialMetrics).totalFilesProcessed
      = [((100 : Nat), (3 : ℚ)), (200, 5)].length) ∧
    (([((100 : Nat), (3 : ℚ)), (200, 5)].foldl
        (fun acc p => updateProcessingMetrics acc p.1 p.2)
        initialMetrics).averageProcessingTime
      = ([((100 : Nat), (3 : ℚ)), (200, 5)].map Prod.snd).sum
          / (([((100 : Nat), (3 : ℚ)), (200, 5)].length : Nat) : ℚ)) ∧
    ((updateProcessingMetrics initialMetrics 100 7).averageProcessingTime
      = initialMetrics.averageProcessingTime
          + (7 - initialMetrics.averageProcessingTime)
              / ((initialMetrics.totalFilesProcessed : ℚ) + 1)) :=
  incremental_mean_correct [(100, 3), (200, 5)] initialMetrics 100 7

/-- C10 (corrected).  For a positive capacity the cache invariant holds:
after any operation sequence from a fresh cache at most `maxSize` entries
remain; a `set` on a full cache evicts the first (least recently refreshed)
entry before inserting, so the old first key is gone afterwards; and a `get`
hit re-inserts the entry at the end of the insertion order.  With capacity
0 the bound fails (see the counterexample), because a `set` evicts only one
entry before inserting. -/
theorem cache_lru_bounded (maxSize : Nat) (ops : List CacheOp)
    (c : MetadataCache) (k0 v0 k v w : Nat) (rest : CacheMap)
    (hmax : 1 ≤ maxSize) :
    ((applyOps (MetadataCache.emptyCache maxSize) ops).cache.length ≤ maxSize) ∧
    (c.cache = (k0, v0) :: rest → c.maxSize ≤ c.cache.length → k ≠ k0 →
      k0 ∉ (MetadataCache.set c (some k) v).cache.map Prod.fst) ∧
    (mapGet c.cache k = some w →
      (MetadataCache.get c (some k)).1.cache = mapDelete c.cache k ++ [(k, w)]) := by
  refine ⟨?_, ?_, ?_⟩
  · have hlen := applyOps_length ops (MetadataCache.emptyCache maxSize) hmax
      (by simp [MetadataCache.emptyCache])
    rwa [applyOps_maxSize] at hlen
  · intro hc hfull hne
    have hev : evictIfFull c = mapDelete c.cache k0 := by
      unfold evictIfFull
      rw [if_pos hfull, hc]
    show k0 ∉ (mapSet (evictIfFull c) k v).map Prod.fst
    rw [hev]
    exact mapSet_key_not_mem _ k v k0 (mapDelete_key_not_mem c.cache k0) hne
  · intro hg
    simp only [MetadataCache.get, hg]
    exact mapSet_mapDelete_append c.cache k w

/-- Witness for C10 (amended): a capacity-1 run stays within bound, a `set`
on the full two-entry cache evicts the first key 5, and a `get` hit on key 3
moves that entry to the end. -/
theorem cache_lru_bounded_witness :
    ((applyOps (MetadataCache.emptyCache 1)
        [CacheOp.set (some 1) 2, CacheOp.set (some 3) 4,
         CacheOp.get (some 3)]).cache.length ≤ 1) ∧
    (5 ∉ (MetadataCache.set ⟨[(5, 6), (3, 4)], 2⟩ (some 3) 7).cache.map Prod.fst) ∧
    ((MetadataCache.get ⟨[(5, 6), (3, 4)], 2⟩ (some 3)).1.cache
      = mapDelete [(5, 6), (3, 4)] 3 ++ [(3, 4)]) := by
  obtain ⟨h1, h2, h3⟩ := cache_lru_bounded 1
      [CacheOp.set (some 1) 2, CacheOp.set (some 3) 4, CacheOp.get (some 3)]
      ⟨[(5, 6), (3, 4)], 2⟩ 5 6 3 7 4 [(3, 4)] (by decide)
  exact ⟨h1, h2 rfl (by decide) (by decide), h3 (by decide)⟩

/-- Counterexample for C10 as stated: with capacity `maxSize = 0` (possible
in the source because the default parameter only replaces `undefined`, not
`0`), a single `set` leaves one entry, exceeding the capacity. -/
theorem cache_capacity_zero_overflow :
    (applyOps (MetadataCache.emptyCache 0) [CacheOp.set (some 1) 2]).cache.length = 1 ∧
    ¬ ((applyOps (MetadataCache.emptyCache 0) [CacheOp.set (some 1) 2]).cache.length
        ≤ (MetadataCache.emptyCache 0).maxSize) := by
  exact ⟨by decide, by decide⟩

end H265ize
